import Mathlib

/-!
Verification of the Plan 9-style channel layer implemented in
`sys/src/cmd/cogcity/cogcity.c` (the `LINUX_BUILD` compatibility section),
with the data types from `sys/src/cmd/cogcity/plan9_compat.h`.

The embedding is sequential: a channel operation is a function from the
channel state to a result together with the updated state.  A blocking
operation that would suspend in `pthread_cond_wait` with no other thread to
wake it is recorded as the distinguished outcome `BRes.blocked` with the
state unchanged (a later `chanclose` from another thread makes the suspended
call return `-1`, again without touching `nbuf`/`off`, which is exactly what
the unchanged state expresses).  `pthread_mutex_trylock` in the non-blocking
variants is modelled as succeeding, since in a sequential execution the lock
is free.

A buffered element (`elemsize` bytes moved by `memcpy`) is modelled as one
opaque value of type `Val`; this is faithful whenever `elemsize > 0` and the
caller supplies correctly sized storage.  Allocation (`malloc`) is modelled
as succeeding; the `nil` returns of `chancreate` on allocation failure are
outside the model.
-/

namespace CogChan

/-- One buffered element, moved wholesale by the `memcpy` calls. -/
abbrev Val := Int

/-- Mirror of `struct Channel` (plan9_compat.h): element size, capacity,
current count, read offset, closed flag, plus the buffer.  `hasbuf` models
whether the `buf` pointer is non-nil (`chancreate` allocates it exactly when
`bufsize > 0` and it is never reassigned); `buf` gives the contents of each
slot index.  The pthread mutex and condition variables carry no sequential
state and are not represented. -/
structure Chan where
  elemsize : Int
  bufsize : Int
  nbuf : Int
  off : Int
  closed : Bool
  hasbuf : Bool
  buf : Int → Val

/-- Writing value `v` into buffer slot `idx` (the `memcpy` into
`(char*)c->buf + slot * elemsize`). -/
def bufWrite (c : Chan) (idx : Int) (v : Val) : Chan :=
  { c with buf := fun i => if i = idx then v else c.buf i }

/-- Result of a blocking operation: `ret code` is the `int` the C function
returns; `blocked` marks the call suspended in `pthread_cond_wait` with
nothing in the sequential execution to wake it. -/
inductive BRes where
  | ret (code : Int)
  | blocked
deriving DecidableEq, Repr

/-- `chancreate(elemsize, bufsize)` (cogcity.c): a fresh channel with
`nbuf = 0`, `off = 0`, `closed = 0`, and a buffer allocated exactly when
`bufsize > 0`.  The malloc-failure paths (returning nil) are not modelled.
The initial buffer bytes are uninitialized in C; the model picks 0 for every
slot, and no theorem reads a slot before it is written. -/
def chancreate (elemsize bufsize : Int) : Chan :=
  { elemsize := elemsize
    bufsize := bufsize
    nbuf := 0
    off := 0
    closed := false
    hasbuf := decide (0 < bufsize)
    buf := fun _ => 0 }

/-- The state change both send paths perform (cogcity.c, `chansend` and
`channbsend` share these lines): `memcpy` into slot `(off + nbuf) % bufsize`
when `buf` is non-nil, then `c->nbuf++`.  C's `%` on `int` truncates toward
zero, which is `Int.tmod`. -/
def sendState (c : Chan) (v : Val) : Chan :=
  let c1 := if c.hasbuf then bufWrite c ((c.off + c.nbuf).tmod c.bufsize) v else c
  { c1 with nbuf := c1.nbuf + 1 }

/-- The value both receive paths hand out (cogcity.c, `chanrecv` and
`channbrecv`): the slot at `off` when `buf` is non-nil, otherwise the out
pointer is left untouched (`none`). -/
def recvVal (c : Chan) : Option Val :=
  if c.hasbuf then some (c.buf c.off) else none

/-- The state change both receive paths perform:
`off = (off + 1) % bufsize; nbuf--`. -/
def recvState (c : Chan) : Chan :=
  { c with off := (c.off + 1).tmod c.bufsize, nbuf := c.nbuf - 1 }

/-- `chansend` (cogcity.c), on a non-nil channel.
C control flow: fail with -1 if closed; wait on `notfull` while
`nbuf >= bufsize && !closed` (sequentially: `blocked`); re-check closed;
otherwise store the value and return 1. -/
def chansend (c : Chan) (v : Val) : BRes × Chan :=
  if c.closed then (BRes.ret (-1), c)
  else if c.nbuf ≥ c.bufsize then (BRes.blocked, c)
  else (BRes.ret 1, sendState c v)

/-- `chanrecv` (cogcity.c), on a non-nil channel.
C control flow: wait on `notempty` while `nbuf <= 0 && !closed`
(sequentially: `blocked`); if `nbuf <= 0 && closed` return -1; otherwise
copy the slot at `off` out, advance `off`, decrement `nbuf`, return 1.
The middle component is the value written through the out-pointer. -/
def chanrecv (c : Chan) : BRes × Option Val × Chan :=
  if c.nbuf ≤ 0 ∧ c.closed = false then (BRes.blocked, none, c)
  else if c.nbuf ≤ 0 ∧ c.closed = true then (BRes.ret (-1), none, c)
  else (BRes.ret 1, recvVal c, recvState c)

/-- `channbsend` (cogcity.c), on a non-nil channel, with the trylock
succeeding (sequential execution): return 0 if `closed || nbuf >= bufsize`,
otherwise store the value and return 1. -/
def channbsend (c : Chan) (v : Val) : Int × Chan :=
  if c.closed = true ∨ c.nbuf ≥ c.bufsize then (0, c)
  else (1, sendState c v)

/-- `channbrecv` (cogcity.c), on a non-nil channel, with the trylock
succeeding: return 0 if `nbuf <= 0`, otherwise read the slot at `off`,
advance `off`, decrement `nbuf`, return 1. -/
def channbrecv (c : Chan) : Int × Option Val × Chan :=
  if c.nbuf ≤ 0 then (0, none, c)
  else (1, recvVal c, recvState c)

/-- `chanclose` (cogcity.c), on a non-nil channel: set the closed flag and
broadcast both conditions (the broadcasts carry no sequential state). -/
def chanclose (c : Chan) : Chan :=
  { c with closed := true }

/-- `chanlen` (cogcity.c), on a non-nil channel: the current count. -/
def chanlen (c : Chan) : Int :=
  c.nbuf

/-- `chansend` including the `if (!c) return -1;` nil-handle guard; the
channel argument models the `Channel*`, with `none` the nil pointer. -/
def chansendP (c : Option Chan) (v : Val) : BRes × Option Chan :=
  match c with
  | none => (BRes.ret (-1), none)
  | some ch => let r := chansend ch v; (r.1, some r.2)

/-- `chanrecv` including the `if (!c) return -1;` nil-handle guard. -/
def chanrecvP (c : Option Chan) : BRes × Option Val × Option Chan :=
  match c with
  | none => (BRes.ret (-1), none, none)
  | some ch => let r := chanrecv ch; (r.1, r.2.1, some r.2.2)

/-- `channbsend` including the `if (!c) return 0;` nil-handle guard. -/
def channbsendP (c : Option Chan) (v : Val) : Int × Option Chan :=
  match c with
  | none => (0, none)
  | some ch => let r := channbsend ch v; (r.1, some r.2)

/-- `channbrecv` including the `if (!c) return 0;` nil-handle guard. -/
def channbrecvP (c : Option Chan) : Int × Option Val × Option Chan :=
  match c with
  | none => (0, none, none)
  | some ch => let r := channbrecv ch; (r.1, r.2.1, some r.2.2)

/-- `chanlen` including the `if (!c) return 0;` nil-handle guard. -/
def chanlenP (c : Option Chan) : Int :=
  match c with
  | none => 0
  | some ch => chanlen ch

/-- `chanclose` including the `if (!c) return;` nil-handle guard. -/
def chancloseP (c : Option Chan) : Option Chan :=
  match c with
  | none => none
  | some ch => some (chanclose ch)

/-- `chanfree` including the `if (!c) return;` nil-handle guard: on a nil
handle it returns at once; on a live channel it deallocates, leaving no
state (`none`). -/
def chanfreeP (_c : Option Chan) : Option Chan :=
  none

/-- The `Alt` operation codes from the `enum` in plan9_compat.h. -/
def CHANRCV : Int := 1

/-- `CHANSND` operation code. -/
def CHANSND : Int := 2

/-- `CHANNOP` operation code. -/
def CHANNOP : Int := 3

/-- `CHANNOBLK` operation code. -/
def CHANNOBLK : Int := 4

/-- `CHANEND` sentinel code. -/
def CHANEND : Int := 5

/-- Mirror of `struct Alt` (plan9_compat.h): channel pointer, value slot and
operation code.  Channels are shared by reference, so `c` is an index into a
store of channels (the address the pointer holds); `err` and `entryno` are
never read by `alt` and are omitted. -/
structure AltEntry where
  c : Nat
  v : Val
  op : Int

/-- The heap of live channels; an `Alt` entry's `c` field indexes it. -/
abbrev Store := List Chan

/-- Dereference a channel index; `none` plays the role of a nil
`Channel*` (every channel function checks nil first). -/
def getCh (s : Store) (i : Nat) : Option Chan :=
  s.get? i

/-- Write back the updated channel at index `i`. -/
def setCh (s : Store) (i : Nat) (c : Chan) : Store :=
  s.set i c

/-- First loop of `alt` (cogcity.c): scan the entries in order until the
`CHANEND` sentinel (also modelled by the end of the list), returning the
index, received value and updated store of the first entry whose
non-blocking variant succeeds; `CHANNOBLK` returns its index at once.  A
failed non-blocking call leaves the channel untouched (it only trylocks,
tests and unlocks), so the store is passed on unchanged. -/
def altScan1 (s : Store) : List AltEntry → Nat → Option (Nat × Option Val × Store)
  | [], _ => none
  | e :: rest, i =>
    if e.op = CHANEND then none
    else if e.op = CHANNOBLK then some (i, none, s)
    else if e.op = CHANRCV then
      match getCh s e.c with
      | none => altScan1 s rest (i + 1)
      | some ch =>
        let r := channbrecv ch
        if r.1 = 1 then some (i, r.2.1, setCh s e.c r.2.2) else altScan1 s rest (i + 1)
    else if e.op = CHANSND then
      match getCh s e.c with
      | none => altScan1 s rest (i + 1)
      | some ch =>
        let r := channbsend ch e.v
        if r.1 = 1 then some (i, none, setCh s e.c r.2) else altScan1 s rest (i + 1)
    else altScan1 s rest (i + 1)

/-- Result of `alt`: `sel i v` is a return of index `i` (with `v` the value
a receive wrote into the entry's slot), `stuck i` marks the call suspended
inside the blocking variant of entry `i`, and `fail` is the `return -1`
after the second loop exhausts the list. -/
inductive AltRes where
  | sel (i : Nat) (v : Option Val)
  | stuck (i : Nat)
  | fail
deriving DecidableEq, Repr

/-- Second loop of `alt` (cogcity.c): for each entry up to the sentinel,
perform the blocking variant; a return value `> 0` selects the entry, a
failure (`-1`, closed channel or nil handle) moves on to the next entry, and
a suspension is terminal in the sequential model (`stuck`).  Entries whose
op is neither `CHANRCV` nor `CHANSND` are skipped. -/
def altScan2 (s : Store) : List AltEntry → Nat → AltRes × Store
  | [], _ => (AltRes.fail, s)
  | e :: rest, i =>
    if e.op = CHANEND then (AltRes.fail, s)
    else if e.op = CHANRCV then
      match getCh s e.c with
      | none => altScan2 s rest (i + 1)
      | some ch =>
        match chanrecv ch with
        | (BRes.blocked, _, _) => (AltRes.stuck i, s)
        | (BRes.ret code, v, ch1) =>
          if 0 < code then (AltRes.sel i v, setCh s e.c ch1) else altScan2 s rest (i + 1)
    else if e.op = CHANSND then
      match getCh s e.c with
      | none => altScan2 s rest (i + 1)
      | some ch =>
        match chansend ch e.v with
        | (BRes.blocked, _) => (AltRes.stuck i, s)
        | (BRes.ret code, ch1) =>
          if 0 < code then (AltRes.sel i none, setCh s e.c ch1) else altScan2 s rest (i + 1)
    else altScan2 s rest (i + 1)

/-- `alt` (cogcity.c): try every entry non-blockingly once; if none is
ready, fall through to the blocking loop. -/
def alt (s : Store) (entries : List AltEntry) : AltRes × Store :=
  match altScan1 s entries 0 with
  | some r => (AltRes.sel r.1 r.2.1, r.2.2)
  | none => altScan2 s entries 0

/-- One sequential channel operation, for reasoning about reachable channel
states. -/
inductive Op where
  | send (v : Val)
  | recv
  | nbsend (v : Val)
  | nbrecv
  | close

/-- Apply one operation to a channel state (the result code is discarded;
an operation that fails or would block leaves the state unchanged by
construction of the operation functions). -/
def applyOp (c : Chan) : Op → Chan
  | Op.send v => (chansend c v).2
  | Op.recv => (chanrecv c).2.2
  | Op.nbsend v => (channbsend c v).2
  | Op.nbrecv => (channbrecv c).2.2
  | Op.close => chanclose c

/-- Apply a sequence of operations in order. -/
def applyOps (c : Chan) (ops : List Op) : Chan :=
  ops.foldl applyOp c

/-- The spec's channel-state invariant (§3): `0 ≤ count ≤ capacity`, and
`0 ≤ offset < capacity` when `capacity > 0`. -/
def ChanInv (c : Chan) : Prop :=
  0 ≤ c.nbuf ∧ c.nbuf ≤ c.bufsize ∧ (0 < c.bufsize → 0 ≤ c.off ∧ c.off < c.bufsize)

instance (c : Chan) : Decidable (ChanInv c) := by
  unfold ChanInv; infer_instance

/-- The abstract queue a channel holds: the buffer slots from `off` going
forward for `nbuf` elements, wrapping modulo `bufsize` — the region the
spec's data model designates as defined. -/
def contents (c : Chan) : List Val :=
  (List.range c.nbuf.toNat).map (fun k : Nat => c.buf ((c.off + (k : Int)).tmod c.bufsize))

/-- Send each value of a list in order, collecting the result codes. -/
def sendAll (c : Chan) : List Val → List BRes × Chan
  | [] => ([], c)
  | v :: vs =>
    let r := chansend c v
    let rest := sendAll r.2 vs
    (r.1 :: rest.1, rest.2)

/-- Perform `n` receives in order, collecting result codes and values. -/
def recvN (c : Chan) : Nat → List (BRes × Option Val) × Chan
  | 0 => ([], c)
  | n + 1 =>
    let r := chanrecv c
    let rest := recvN r.2.2 n
    ((r.1, r.2.1) :: rest.1, rest.2)

/-! ### Projections of the shared mutation states -/

theorem sendState_elemsize (c : Chan) (v : Val) : (sendState c v).elemsize = c.elemsize := by
  unfold sendState bufWrite; by_cases hb : c.hasbuf = true <;> simp [hb]

theorem sendState_bufsize (c : Chan) (v : Val) : (sendState c v).bufsize = c.bufsize := by
  unfold sendState bufWrite; by_cases hb : c.hasbuf = true <;> simp [hb]

theorem sendState_nbuf (c : Chan) (v : Val) : (sendState c v).nbuf = c.nbuf + 1 := by
  unfold sendState bufWrite; by_cases hb : c.hasbuf = true <;> simp [hb]

theorem sendState_off (c : Chan) (v : Val) : (sendState c v).off = c.off := by
  unfold sendState bufWrite; by_cases hb : c.hasbuf = true <;> simp [hb]

theorem sendState_closed (c : Chan) (v : Val) : (sendState c v).closed = c.closed := by
  unfold sendState bufWrite; by_cases hb : c.hasbuf = true <;> simp [hb]

theorem sendState_hasbuf (c : Chan) (v : Val) : (sendState c v).hasbuf = c.hasbuf := by
  unfold sendState bufWrite; by_cases hb : c.hasbuf = true <;> simp [hb]

theorem sendState_buf_of_hasbuf (c : Chan) (v : Val) (hb : c.hasbuf = true) :
    (sendState c v).buf = fun i => if i = (c.off + c.nbuf).tmod c.bufsize then v else c.buf i := by
  unfold sendState bufWrite; simp [hb]

theorem recvState_elemsize (c : Chan) : (recvState c).elemsize = c.elemsize := rfl

theorem recvState_bufsize (c : Chan) : (recvState c).bufsize = c.bufsize := rfl

theorem recvState_nbuf (c : Chan) : (recvState c).nbuf = c.nbuf - 1 := rfl

theorem recvState_off (c : Chan) : (recvState c).off = (c.off + 1).tmod c.bufsize := rfl

theorem recvState_closed (c : Chan) : (recvState c).closed = c.closed := rfl

theorem recvState_hasbuf (c : Chan) : (recvState c).hasbuf = c.hasbuf := rfl

theorem recvState_buf (c : Chan) : (recvState c).buf = c.buf := rfl

/-! ### Case analyses of the four operations -/

theorem chansend_spec (c : Chan) (v : Val) :
    (c.closed = true ∧ chansend c v = (BRes.ret (-1), c)) ∨
    (c.closed = false ∧ c.bufsize ≤ c.nbuf ∧ chansend c v = (BRes.blocked, c)) ∨
    (c.closed = false ∧ c.nbuf < c.bufsize ∧ chansend c v = (BRes.ret 1, sendState c v)) := by
  by_cases h1 : c.closed = true
  · exact Or.inl ⟨h1, by simp [chansend, h1]⟩
  · have h1f : c.closed = false := by revert h1; cases c.closed <;> simp
    by_cases h2 : c.bufsize ≤ c.nbuf
    · exact Or.inr (Or.inl ⟨h1f, h2, by simp [chansend, h1f, h2]⟩)
    · exact Or.inr (Or.inr ⟨h1f, by omega, by
        have h2n : ¬ c.nbuf ≥ c.bufsize := by omega
        simp [chansend, h1f, h2n]⟩)

theorem chanrecv_spec (c : Chan) :
    (c.nbuf ≤ 0 ∧ c.closed = false ∧ chanrecv c = (BRes.blocked, none, c)) ∨
    (c.nbuf ≤ 0 ∧ c.closed = true ∧ chanrecv c = (BRes.ret (-1), none, c)) ∨
    (0 < c.nbuf ∧ chanrecv c = (BRes.ret 1, recvVal c, recvState c)) := by
  by_cases h1 : c.nbuf ≤ 0
  · by_cases h2 : c.closed = true
    · exact Or.inr (Or.inl ⟨h1, h2, by simp [chanrecv, h1, h2]⟩)
    · have h2f : c.closed = false := by revert h2; cases c.closed <;> simp
      exact Or.inl ⟨h1, h2f, by simp [chanrecv, h1, h2f]⟩
  · exact Or.inr (Or.inr ⟨by omega, by simp [chanrecv, h1]⟩)

theorem channbsend_spec (c : Chan) (v : Val) :
    ((c.closed = true ∨ c.bufsize ≤ c.nbuf) ∧ channbsend c v = (0, c)) ∨
    (c.closed = false ∧ c.nbuf < c.bufsize ∧ channbsend c v = (1, sendState c v)) := by
  by_cases h : c.closed = true ∨ c.nbuf ≥ c.bufsize
  · exact Or.inl ⟨h, by simp [channbsend, h]⟩
  · push_neg at h
    obtain ⟨h1, h2⟩ := h
    have h1f : c.closed = false := by revert h1; cases c.closed <;> simp
    refine Or.inr ⟨h1f, by omega, ?_⟩
    have hn : ¬ (c.closed = true ∨ c.nbuf ≥ c.bufsize) :=
      fun hc => hc.elim h1 (fun hge => by omega)
    simp [channbsend, hn]

theorem channbrecv_spec (c : Chan) :
    (c.nbuf ≤ 0 ∧ channbrecv c = (0, none, c)) ∨
    (0 < c.nbuf ∧ channbrecv c = (1, recvVal c, recvState c)) := by
  by_cases h : c.nbuf ≤ 0
  · exact Or.inl ⟨h, by simp [channbrecv, h]⟩
  · exact Or.inr ⟨by omega, by simp [channbrecv, h]⟩

/-! ### Invariant preservation -/

theorem sendState_inv (c : Chan) (v : Val) (h : ChanInv c) (hlt : c.nbuf < c.bufsize) :
    ChanInv (sendState c v) := by
  obtain ⟨h1, h2, h3⟩ := h
  refine ⟨?_, ?_, ?_⟩
  · rw [sendState_nbuf]; omega
  · rw [sendState_nbuf, sendState_bufsize]; omega
  · rw [sendState_bufsize, sendState_off]; exact h3

theorem recvState_inv (c : Chan) (h : ChanInv c) (hpos : 0 < c.nbuf) :
    ChanInv (recvState c) := by
  obtain ⟨h1, h2, h3⟩ := h
  have hcap : 0 < c.bufsize := by omega
  obtain ⟨ho1, ho2⟩ := h3 hcap
  refine ⟨?_, ?_, fun _ => ⟨?_, ?_⟩⟩
  · rw [recvState_nbuf]; omega
  · rw [recvState_nbuf, recvState_bufsize]; omega
  · rw [recvState_off]
    rw [Int.tmod_eq_emod (by omega) (by omega)]
    exact Int.emod_nonneg _ (by omega)
  · rw [recvState_off, recvState_bufsize]
    rw [Int.tmod_eq_emod (by omega) (by omega)]
    exact Int.emod_lt_of_pos _ hcap

theorem applyOp_inv (c : Chan) (op : Op) (h : ChanInv c) :
    ChanInv (applyOp c op) ∧ (c.closed = true → (applyOp c op).closed = true) := by
  cases op with
  | send v =>
    rcases chansend_spec c v with ⟨_, hE⟩ | ⟨_, _, hE⟩ | ⟨hcl, hlt, hE⟩
    · simp only [applyOp, hE]; exact ⟨h, fun hc => hc⟩
    · simp only [applyOp, hE]; exact ⟨h, fun hc => hc⟩
    · simp only [applyOp, hE]
      exact ⟨sendState_inv c v h hlt, by rw [sendState_closed]; exact fun hc => hc⟩
  | recv =>
    rcases chanrecv_spec c with ⟨_, _, hE⟩ | ⟨_, _, hE⟩ | ⟨hp, hE⟩
    · simp only [applyOp, hE]; exact ⟨h, fun hc => hc⟩
    · simp only [applyOp, hE]; exact ⟨h, fun hc => hc⟩
    · simp only [applyOp, hE]
      exact ⟨recvState_inv c h hp, by rw [recvState_closed]; exact fun hc => hc⟩
  | nbsend v =>
    rcases channbsend_spec c v with ⟨_, hE⟩ | ⟨hcl, hlt, hE⟩
    · simp only [applyOp, hE]; exact ⟨h, fun hc => hc⟩
    · simp only [applyOp, hE]
      exact ⟨sendState_inv c v h hlt, by rw [sendState_closed]; exact fun hc => hc⟩
  | nbrecv =>
    rcases channbrecv_spec c with ⟨_, hE⟩ | ⟨hp, hE⟩
    · simp only [applyOp, hE]; exact ⟨h, fun hc => hc⟩
    · simp only [applyOp, hE]
      exact ⟨recvState_inv c h hp, by rw [recvState_closed]; exact fun hc => hc⟩
  | close =>
    exact ⟨⟨h.1, h.2.1, h.2.2⟩, fun _ => rfl⟩

/-- **C6** — every channel operation (send, receive, trySend, tryReceive,
close) preserves the channel-state invariant `0 ≤ count ≤ capacity` and
`0 ≤ offset < capacity` when `capacity > 0`; the closed flag never resets
once set; and the invariant holds for every channel `chancreate` returns
(for the data model's non-negative capacities). -/
theorem chan_invariant_preserved :
    (∀ es cap : Int, 0 ≤ cap → ChanInv (chancreate es cap)) ∧
    (∀ (c : Chan) (op : Op), ChanInv c →
      ChanInv (applyOp c op) ∧ (c.closed = true → (applyOp c op).closed = true)) := by
  constructor
  · intro es cap hcap
    exact ⟨le_refl 0, hcap, fun h => ⟨le_refl 0, h⟩⟩
  · intro c op h
    exact applyOp_inv c op h

/-- Witness for C6 at a concrete channel and operation. -/
theorem chan_invariant_preserved_witness :
    ChanInv (chancreate 8 4) ∧ ChanInv (applyOp (chancreate 8 4) (Op.send 7)) :=
  ⟨chan_invariant_preserved.1 8 4 (by decide),
   (chan_invariant_preserved.2 (chancreate 8 4) (Op.send 7)
     (chan_invariant_preserved.1 8 4 (by decide))).1⟩

/-- **C9** — every channel operation called on a nil handle is total and
returns at once without touching any channel: `chansend`/`chanrecv` return
the failure code -1, `channbsend`/`channbrecv` return the not-ready code 0,
`chanlen` returns 0, and `chanclose`/`chanfree` are no-ops. -/
theorem null_handle_ops :
    (∀ v, chansendP none v = (BRes.ret (-1), none)) ∧
    chanrecvP none = (BRes.ret (-1), none, none) ∧
    (∀ v, channbsendP none v = (0, none)) ∧
    channbrecvP none = (0, none, none) ∧
    chanlenP none = 0 ∧
    chancloseP none = none ∧
    chanfreeP none = none :=
  ⟨fun _ => rfl, rfl, fun _ => rfl, rfl, rfl, rfl, rfl⟩

/-- **C4 counterexample** — `channbsend` (trySend) on a closed channel with
four free slots returns 0, exactly the code it returns for an open but full
channel (WouldBlock): the claim that trySend fails with a distinguishable
`ClosedError` after close is false; the code folds the closed case into the
generic not-ready return. -/
theorem closed_trysend_counterexample :
    (channbsend (chanclose (chancreate 4 4)) 5).1 = 0 ∧
    (channbsend ((chansend (chancreate 4 1) 9).2) 5).1 = 0 ∧
    ((chanclose (chancreate 4 4)).closed = true ∧ (chanclose (chancreate 4 4)).nbuf = 0) ∧
    (((chansend (chancreate 4 1) 9).2).closed = false ∧
      ((chansend (chancreate 4 1) 9).2).nbuf = ((chansend (chancreate 4 1) 9).2).bufsize) := by
  decide

/-- **C4 amended** — after `chanclose`, every subsequent `chansend` returns
-1 (the closed-failure code) immediately, regardless of remaining space, and
every subsequent `channbsend` returns 0 immediately — the generic not-ready
code it shares with the would-block case, not a distinguishable closed
error.  Both leave the channel unchanged. -/
theorem closed_send_fails (c : Chan) (v : Val) (h : c.closed = true) :
    chansend c v = (BRes.ret (-1), c) ∧ channbsend c v = (0, c) := by
  constructor
  · simp [chansend, h]
  · simp [channbsend, h]

/-- Witness for the amended C4 at a concrete closed channel. -/
theorem closed_send_fails_witness :
    chansend (chanclose (chancreate 4 4)) 7 = (BRes.ret (-1), chanclose (chancreate 4 4)) ∧
    channbsend (chanclose (chancreate 4 4)) 7 = (0, chanclose (chancreate 4 4)) :=
  closed_send_fails (chanclose (chancreate 4 4)) 7 (by decide)

/-- **C8 counterexample** — `chancreate` called with element size 0 (a
non-positive size) does not fail at all: it returns an open channel
satisfying the state invariant on which a send succeeds with return code 1.
No `InvalidArgument` outcome exists anywhere in the code. -/
theorem create_elemsize_counterexample :
    (0 : Int) ≤ 0 ∧ (chancreate 0 4).closed = false ∧ ChanInv (chancreate 0 4) ∧
    (chansend (chancreate 0 4) 7).1 = BRes.ret 1 := by
  decide

/-- **C8 amended** — `chancreate` performs no element-size validation: for
every non-positive element size (and positive capacity) it returns an open,
invariant-satisfying channel whose sends succeed by return code.  (With
element size 0 the `memcpy` calls move zero bytes; with a negative element
size they invoke undefined behavior; the only failure `chancreate` can
report is allocation failure.) -/
theorem create_no_elemsize_validation (es cap : Int) (v : Val)
    (_hes : es ≤ 0) (hcap : 0 < cap) :
    (chancreate es cap).closed = false ∧ ChanInv (chancreate es cap) ∧
    (chansend (chancreate es cap) v).1 = BRes.ret 1 := by
  refine ⟨rfl, ⟨le_refl 0, by show (0 : Int) ≤ cap; omega, fun h => ⟨le_refl 0, h⟩⟩, ?_⟩
  rcases chansend_spec (chancreate es cap) v with ⟨hcl, hE⟩ | ⟨_, hge, hE⟩ | ⟨_, _, hE⟩
  · simp [chancreate] at hcl
  · have hge2 : cap ≤ (0 : Int) := hge
    omega
  · rw [hE]

/-- Witness for the amended C8 at element size 0, capacity 4. -/
theorem create_no_elemsize_validation_witness :
    (chancreate 0 4).closed = false ∧ ChanInv (chancreate 0 4) ∧
    (chansend (chancreate 0 4) 7).1 = BRes.ret 1 :=
  create_no_elemsize_validation 0 4 7 (by decide) (by decide)

/-! ### Zero-capacity channels -/

theorem zeroCap_applyOps (ops : List Op) :
    ∀ c : Chan, c.bufsize = 0 → c.nbuf = 0 → c.off = 0 →
      (applyOps c ops).bufsize = 0 ∧ (applyOps c ops).nbuf = 0 ∧
      (applyOps c ops).off = 0 := by
  induction ops with
  | nil => intro c h1 h2 h3; exact ⟨h1, h2, h3⟩
  | cons op rest ih =>
    intro c h1 h2 h3
    have hstep : (applyOp c op).bufsize = 0 ∧ (applyOp c op).nbuf = 0 ∧
        (applyOp c op).off = 0 := by
      cases op with
      | send v =>
        rcases chansend_spec c v with ⟨_, hE⟩ | ⟨_, _, hE⟩ | ⟨_, hlt, hE⟩
        · simp only [applyOp, hE]; exact ⟨h1, h2, h3⟩
        · simp only [applyOp, hE]; exact ⟨h1, h2, h3⟩
        · omega
      | recv =>
        rcases chanrecv_spec c with ⟨_, _, hE⟩ | ⟨_, _, hE⟩ | ⟨hp, hE⟩
        · simp only [applyOp, hE]; exact ⟨h1, h2, h3⟩
        · simp only [applyOp, hE]; exact ⟨h1, h2, h3⟩
        · omega
      | nbsend v =>
        rcases channbsend_spec c v with ⟨_, hE⟩ | ⟨_, hlt, hE⟩
        · simp only [applyOp, hE]; exact ⟨h1, h2, h3⟩
        · omega
      | nbrecv =>
        rcases channbrecv_spec c with ⟨_, hE⟩ | ⟨hp, hE⟩
        · simp only [applyOp, hE]; exact ⟨h1, h2, h3⟩
        · omega
      | close => exact ⟨h1, h2, h3⟩
    have : applyOps c (op :: rest) = applyOps (applyOp c op) rest := rfl
    rw [this]
    exact ih (applyOp c op) hstep.1 hstep.2.1 hstep.2.2

/-- **C10** — for a channel created with capacity 0, every reachable state
keeps `nbuf = 0` and `off = 0`: a blocking send suspends while the channel
is open and fails with -1 once it is closed, a non-blocking send returns 0,
so nothing ever increments the count; consequently a receive never takes
its success branch, and the unguarded `(off + 1) % bufsize` division by
zero in `chanrecv` is unreachable. -/
theorem zero_capacity_count_stays_zero (es : Int) (ops : List Op) (v : Val) :
    (applyOps (chancreate es 0) ops).bufsize = 0 ∧
    (applyOps (chancreate es 0) ops).nbuf = 0 ∧
    (applyOps (chancreate es 0) ops).off = 0 ∧
    (chanrecv (applyOps (chancreate es 0) ops)).1 ≠ BRes.ret 1 ∧
    (chansend (applyOps (chancreate es 0) ops) v).1 =
      (if (applyOps (chancreate es 0) ops).closed then BRes.ret (-1) else BRes.blocked) ∧
    (channbsend (applyOps (chancreate es 0) ops) v).1 = 0 := by
  obtain ⟨h1, h2, h3⟩ := zeroCap_applyOps ops (chancreate es 0) rfl rfl rfl
  set c := applyOps (chancreate es 0) ops with hc
  refine ⟨h1, h2, h3, ?_, ?_, ?_⟩
  · rcases chanrecv_spec c with ⟨_, _, hE⟩ | ⟨_, _, hE⟩ | ⟨hp, hE⟩
    · simp [hE]
    · simp [hE]
    · omega
  · rcases chansend_spec c v with ⟨hcl, hE⟩ | ⟨hcl, _, hE⟩ | ⟨_, hlt, hE⟩
    · simp [hE, hcl]
    · simp [hE, hcl]
    · omega
  · rcases channbsend_spec c v with ⟨_, hE⟩ | ⟨_, hlt, hE⟩
    · simp [hE]
    · omega

/-! ### The abstract queue of a channel: the FIFO and drain laws -/

theorem emod_shift_ne (k n cap : Int) (hk : 0 ≤ k) (hkn : k < n) (hn : n < cap) :
    ∀ off : Int, (off + k) % cap ≠ (off + n) % cap := by
  intro off hEq
  rw [Int.emod_eq_emod_iff_emod_sub_eq_zero] at hEq
  have h2 : (k - n) % cap = 0 := by
    have hx : off + k - (off + n) = k - n := by ring
    rwa [hx] at hEq
  have hd : cap ∣ (k - n) := Int.dvd_of_emod_eq_zero h2
  have hd2 : cap ∣ (n - k) := by
    have hx : n - k = -(k - n) := by ring
    rw [hx]
    exact dvd_neg.mpr hd
  have hle : cap ≤ n - k := Int.le_of_dvd (by omega) hd2
  omega

theorem contents_sendState (c : Chan) (v : Val) (hb : c.hasbuf = true)
    (h0 : 0 ≤ c.nbuf) (h1 : c.nbuf < c.bufsize)
    (h2 : 0 ≤ c.off) (_h3 : c.off < c.bufsize) :
    contents (sendState c v) = contents c ++ [v] := by
  have hcap : (0 : Int) < c.bufsize := by omega
  unfold contents
  rw [sendState_nbuf, sendState_off, sendState_bufsize, sendState_buf_of_hasbuf c v hb]
  have hn1 : (c.nbuf + 1).toNat = c.nbuf.toNat + 1 := by omega
  rw [hn1, List.range_succ, List.map_append]
  congr 1
  · apply List.map_congr_left
    intro k hk
    have hklt : k < c.nbuf.toNat := List.mem_range.mp hk
    have hne : (c.off + (k : Int)).tmod c.bufsize ≠ (c.off + c.nbuf).tmod c.bufsize := by
      rw [Int.tmod_eq_emod (by omega) (by omega), Int.tmod_eq_emod (by omega) (by omega)]
      exact emod_shift_ne (k : Int) c.nbuf c.bufsize (by omega) (by omega) (by omega) c.off
    simp [hne]
  · have hcast : ((c.nbuf.toNat : Nat) : Int) = c.nbuf := Int.toNat_of_nonneg h0
    simp [hcast]

theorem contents_recvState (c : Chan) (h0 : 0 < c.nbuf)
    (h2 : 0 ≤ c.off) (h3 : c.off < c.bufsize) :
    contents c = c.buf c.off :: contents (recvState c) := by
  have hcap : (0 : Int) < c.bufsize := by omega
  unfold contents
  rw [recvState_nbuf, recvState_off, recvState_bufsize, recvState_buf]
  have hn : c.nbuf.toNat = (c.nbuf - 1).toNat + 1 := by omega
  rw [hn, List.range_succ_eq_map, List.map_cons]
  congr 1
  · norm_num
    rw [Int.tmod_eq_emod h2 (by omega), Int.emod_eq_of_lt h2 h3]
  · rw [List.map_map]
    apply List.map_congr_left
    intro k _
    show c.buf ((c.off + ((Nat.succ k : Nat) : Int)).tmod c.bufsize) =
      c.buf (((c.off + 1).tmod c.bufsize + (k : Int)).tmod c.bufsize)
    congr 1
    have hin : (c.off + 1).tmod c.bufsize = (c.off + 1) % c.bufsize :=
      Int.tmod_eq_emod (by omega) (by omega)
    rw [hin]
    have hm : (0 : Int) ≤ (c.off + 1) % c.bufsize := Int.emod_nonneg _ (by omega)
    have hL : (c.off + ((Nat.succ k : Nat) : Int)).tmod c.bufsize =
        (c.off + ((Nat.succ k : Nat) : Int)) % c.bufsize :=
      Int.tmod_eq_emod (by omega) (by omega)
    have hR : ((c.off + 1) % c.bufsize + (k : Int)).tmod c.bufsize =
        ((c.off + 1) % c.bufsize + (k : Int)) % c.bufsize :=
      Int.tmod_eq_emod (by omega) (by omega)
    rw [hL, hR, Int.emod_add_emod]
    congr 1
    push_cast
    ring

theorem sendAll_ok (vs : List Val) : ∀ c : Chan,
    c.closed = false → c.hasbuf = true → 0 ≤ c.nbuf →
    0 ≤ c.off → c.off < c.bufsize → c.nbuf + (vs.length : Int) ≤ c.bufsize →
    (sendAll c vs).1 = List.replicate vs.length (BRes.ret 1) ∧
    contents (sendAll c vs).2 = contents c ++ vs ∧
    (sendAll c vs).2.closed = false ∧ (sendAll c vs).2.hasbuf = true ∧
    (sendAll c vs).2.nbuf = c.nbuf + (vs.length : Int) ∧
    (sendAll c vs).2.off = c.off ∧ (sendAll c vs).2.bufsize = c.bufsize := by
  induction vs with
  | nil =>
    intro c h1 h2 h3 h4 h5 h6
    refine ⟨rfl, by simp [sendAll], h1, h2, by simp [sendAll], rfl, rfl⟩
  | cons v vs ih =>
    intro c h1 h2 h3 h4 h5 h6
    have hlen : ((v :: vs).length : Int) = (vs.length : Int) + 1 := by
      rw [List.length_cons]; push_cast; ring
    have hlt : c.nbuf < c.bufsize := by rw [hlen] at h6; omega
    rcases chansend_spec c v with ⟨hcl, _⟩ | ⟨_, hge, _⟩ | ⟨_, _, hE⟩
    · rw [hcl] at h1; cases h1
    · omega
    · have hstep : sendAll c (v :: vs) =
          ((BRes.ret 1) :: (sendAll (sendState c v) vs).1, (sendAll (sendState c v) vs).2) := by
        simp [sendAll, hE]
      obtain ⟨ih1, ih2, ih3, ih4, ih5, ih6, ih7⟩ := ih (sendState c v)
        (by rw [sendState_closed]; exact h1)
        (by rw [sendState_hasbuf]; exact h2)
        (by rw [sendState_nbuf]; omega)
        (by rw [sendState_off]; exact h4)
        (by rw [sendState_off, sendState_bufsize]; exact h5)
        (by rw [sendState_nbuf, sendState_bufsize]; rw [hlen] at h6; omega)
      rw [hstep]
      refine ⟨?_, ?_, ih3, ih4, ?_, ?_, ?_⟩
      · simp [ih1, List.replicate_succ]
      · rw [ih2, contents_sendState c v h2 h3 hlt h4 h5]
        simp
      · rw [ih5, sendState_nbuf, hlen]; ring
      · rw [ih6, sendState_off]
      · rw [ih7, sendState_bufsize]

theorem recvN_drain (n : Nat) : ∀ c : Chan,
    c.nbuf = (n : Int) → c.hasbuf = true → 0 ≤ c.off → c.off < c.bufsize →
    (recvN c n).1 = (contents c).map (fun v => (BRes.ret 1, some v)) ∧
    (recvN c n).2.nbuf = 0 ∧ (recvN c n).2.closed = c.closed ∧
    (recvN c n).2.bufsize = c.bufsize ∧ (recvN c n).2.hasbuf = c.hasbuf := by
  induction n with
  | zero =>
    intro c h1 h2 h3 h4
    refine ⟨?_, by simp [recvN, h1], by simp [recvN], by simp [recvN], by simp [recvN]⟩
    simp [recvN, contents, h1]
  | succ n ih =>
    intro c h1 h2 h3 h4
    have hpos : 0 < c.nbuf := by omega
    rcases chanrecv_spec c with ⟨hle, _, _⟩ | ⟨hle, _, _⟩ | ⟨_, hE⟩
    · omega
    · omega
    · have hstep : recvN c (n + 1) =
          ((BRes.ret 1, recvVal c) :: (recvN (recvState c) n).1, (recvN (recvState c) n).2) := by
        simp [recvN, hE]
      have hcap : (0 : Int) < c.bufsize := by omega
      have hoff1 : (0 : Int) ≤ (recvState c).off := by
        rw [recvState_off, Int.tmod_eq_emod (by omega) (by omega)]
        exact Int.emod_nonneg _ (by omega)
      have hoff2 : (recvState c).off < (recvState c).bufsize := by
        rw [recvState_off, recvState_bufsize, Int.tmod_eq_emod (by omega) (by omega)]
        exact Int.emod_lt_of_pos _ hcap
      obtain ⟨ih1, ih2, ih3, ih4, ih5⟩ := ih (recvState c)
        (by rw [recvState_nbuf]; omega) (by rw [recvState_hasbuf]; exact h2) hoff1 hoff2
      rw [hstep]
      refine ⟨?_, ih2, by rw [ih3, recvState_closed], by rw [ih4, recvState_bufsize],
        by rw [ih5, recvState_hasbuf]⟩
      rw [contents_recvState c hpos h3 h4, List.map_cons, ih1]
      simp [recvVal, h2]

/-- **C1** — FIFO law: on an empty, open channel with a real buffer of
capacity at least `N = vs.length`, the `N` sends of `vs` in order by one
party all succeed (return 1), and the following `N` receives all succeed
and yield exactly the sent values in the order they were sent. -/
theorem fifo_order (c : Chan) (vs : List Val)
    (hcl : c.closed = false) (hemp : c.nbuf = 0) (hb : c.hasbuf = true)
    (_hes : 0 < c.elemsize) (ho1 : 0 ≤ c.off) (ho2 : c.off < c.bufsize)
    (hcap : (vs.length : Int) ≤ c.bufsize) :
    (sendAll c vs).1 = List.replicate vs.length (BRes.ret 1) ∧
    (recvN (sendAll c vs).2 vs.length).1 = vs.map (fun v => (BRes.ret 1, some v)) := by
  obtain ⟨s1, s2, _, s4, s5, s6, s7⟩ := sendAll_ok vs c hcl hb (by omega) ho1 ho2 (by omega)
  refine ⟨s1, ?_⟩
  obtain ⟨r1, _, _, _, _⟩ := recvN_drain vs.length (sendAll c vs).2
    (by rw [s5, hemp]; ring) s4 (by rw [s6]; exact ho1) (by rw [s6, s7]; exact ho2)
  rw [r1, s2]
  have hcnil : contents c = [] := by simp [contents, hemp]
  rw [hcnil]
  simp

/-- Witness for C1: three values through a fresh capacity-3 channel. -/
theorem fifo_order_witness :
    (sendAll (chancreate 4 3) [10, 20, 30]).1 = List.replicate 3 (BRes.ret 1) ∧
    (recvN (sendAll (chancreate 4 3) [10, 20, 30]).2 3).1 =
      [10, 20, 30].map (fun v => (BRes.ret 1, some v)) :=
  fifo_order (chancreate 4 3) [10, 20, 30] (by decide) (by decide) (by decide)
    (by decide) (by decide) (by decide) (by decide)

/-- **C3** — close drains then fails: a channel holding `K` buffered values
when `chanclose` is called serves the next `K` receives successfully with
exactly those values in buffer order, and the `(K+1)`-th receive fails with
-1 (the closed error). -/
theorem close_drains_then_fails (c : Chan) (hInv : ChanInv c)
    (hb : c.hasbuf = true) (_hes : 0 < c.elemsize) :
    (recvN (chanclose c) c.nbuf.toNat).1 =
      (contents c).map (fun v => (BRes.ret 1, some v)) ∧
    (chanrecv (recvN (chanclose c) c.nbuf.toNat).2).1 = BRes.ret (-1) := by
  obtain ⟨h1, h2, h3⟩ := hInv
  have hcc : contents (chanclose c) = contents c := rfl
  by_cases hcap : 0 < c.bufsize
  · obtain ⟨ho1, ho2⟩ := h3 hcap
    obtain ⟨r1, r2, r3, _, _⟩ := recvN_drain c.nbuf.toNat (chanclose c)
      (by show c.nbuf = ((c.nbuf.toNat : Nat) : Int); omega) hb ho1 ho2
    refine ⟨by rw [r1, hcc], ?_⟩
    rcases chanrecv_spec (recvN (chanclose c) c.nbuf.toNat).2 with
      ⟨_, hclf, _⟩ | ⟨_, _, hE⟩ | ⟨hp, _⟩
    · rw [r3] at hclf; cases hclf
    · rw [hE]
    · omega
  · have hn0 : c.nbuf = 0 := by omega
    have htn : c.nbuf.toNat = 0 := by omega
    rw [htn]
    have hnil : contents c = [] := by simp [contents, hn0]
    refine ⟨by simp [recvN, hnil], ?_⟩
    show (chanrecv (chanclose c)).1 = BRes.ret (-1)
    rcases chanrecv_spec (chanclose c) with ⟨_, hclf, _⟩ | ⟨_, _, hE⟩ | ⟨hp, _⟩
    · cases hclf
    · rw [hE]
    · have : (chanclose c).nbuf = c.nbuf := rfl
      omega

/-- Witness for C3: a channel holding two values, then closed. -/
theorem close_drains_then_fails_witness :
    (recvN (chanclose ((sendAll (chancreate 4 3) [10, 20]).2))
        ((sendAll (chancreate 4 3) [10, 20]).2).nbuf.toNat).1 =
      (contents ((sendAll (chancreate 4 3) [10, 20]).2)).map
        (fun v => (BRes.ret 1, some v)) ∧
    (chanrecv (recvN (chanclose ((sendAll (chancreate 4 3) [10, 20]).2))
        ((sendAll (chancreate 4 3) [10, 20]).2).nbuf.toNat).2).1 = BRes.ret (-1) :=
  close_drains_then_fails ((sendAll (chancreate 4 3) [10, 20]).2)
    (by decide) (by decide) (by decide)

/-! ### The blocking phase of `alt` -/

theorem chanrecv_code_cases (c : Chan) :
    (chanrecv c).1 = BRes.blocked ∨ (chanrecv c).1 = BRes.ret (-1) ∨
    (chanrecv c).1 = BRes.ret 1 := by
  rcases chanrecv_spec c with ⟨_, _, hE⟩ | ⟨_, _, hE⟩ | ⟨_, hE⟩ <;> rw [hE]
  · exact Or.inl rfl
  · exact Or.inr (Or.inl rfl)
  · exact Or.inr (Or.inr rfl)

theorem chansend_code_cases (c : Chan) (v : Val) :
    (chansend c v).1 = BRes.blocked ∨ (chansend c v).1 = BRes.ret (-1) ∨
    (chansend c v).1 = BRes.ret 1 := by
  rcases chansend_spec c v with ⟨_, hE⟩ | ⟨_, _, hE⟩ | ⟨_, _, hE⟩ <;> rw [hE]
  · exact Or.inr (Or.inl rfl)
  · exact Or.inl rfl
  · exact Or.inr (Or.inr rfl)

/-- The blocking loop of `alt` passes over entry `e` without suspending:
either the op code is one the loop ignores (neither receive, send, nor the
sentinel), or the entry's blocking variant fails immediately — through a
nil channel handle, or a receive finding a closed drained channel, or a
send finding a closed channel. -/
def entryPassedOver (s : Store) (e : AltEntry) : Prop :=
  (e.op ≠ CHANEND ∧ e.op ≠ CHANRCV ∧ e.op ≠ CHANSND) ∨
  (e.op = CHANRCV ∧ (getCh s e.c = none ∨
    ∃ ch, getCh s e.c = some ch ∧ (chanrecv ch).1 = BRes.ret (-1))) ∨
  (e.op = CHANSND ∧ (getCh s e.c = none ∨
    ∃ ch, getCh s e.c = some ch ∧ (chansend ch e.v).1 = BRes.ret (-1)))

/-- Entry `e` suspends the blocking loop: its blocking variant blocks on the
channel it references right now. -/
def entryBlocksNow (s : Store) (e : AltEntry) : Prop :=
  (e.op = CHANRCV ∧ ∃ ch, getCh s e.c = some ch ∧ (chanrecv ch).1 = BRes.blocked) ∨
  (e.op = CHANSND ∧ ∃ ch, getCh s e.c = some ch ∧ (chansend ch e.v).1 = BRes.blocked)

theorem stuck_spec_lift (rest : List AltEntry) (s : Store) (e : AltEntry) (i j : Nat)
    (hij : i + 1 ≤ j)
    (hpass : entryPassedOver s e)
    (hex : ∃ e1, rest.get? (j - (i + 1)) = some e1 ∧ entryBlocksNow s e1)
    (hall : ∀ k, k < j - (i + 1) → ∀ e2, rest.get? k = some e2 → entryPassedOver s e2) :
    i ≤ j ∧
    (∃ e1, (e :: rest).get? (j - i) = some e1 ∧ entryBlocksNow s e1) ∧
    (∀ k, k < j - i → ∀ e2, (e :: rest).get? k = some e2 → entryPassedOver s e2) := by
  have hsub : j - i = (j - (i + 1)) + 1 := by omega
  refine ⟨by omega, ?_, ?_⟩
  · obtain ⟨e1, he1, hb1⟩ := hex
    exact ⟨e1, by rw [hsub]; simpa using he1, hb1⟩
  · intro k hk e2 he2
    cases k with
    | zero =>
      have he : e2 = e := by
        have := he2
        simp at this
        exact this.symm
      rw [he]; exact hpass
    | succ k2 =>
      rw [hsub] at hk
      exact hall k2 (by omega) e2 (by simpa using he2)

theorem altScan2_stuck_spec (entries : List AltEntry) :
    ∀ (s : Store) (i j : Nat) (s2 : Store),
    altScan2 s entries i = (AltRes.stuck j, s2) →
    s2 = s ∧ i ≤ j ∧
    (∃ e, entries.get? (j - i) = some e ∧ entryBlocksNow s e) ∧
    (∀ k, k < j - i → ∀ e, entries.get? k = some e → entryPassedOver s e) := by
  induction entries with
  | nil =>
    intro s i j s2 h
    simp [altScan2] at h
  | cons e rest ih =>
    intro s i j s2 h
    by_cases h1 : e.op = CHANEND
    · simp [altScan2, h1] at h
    · by_cases h2 : e.op = CHANRCV
      · cases hg : getCh s e.c with
        | none =>
          have hrec : altScan2 s rest (i + 1) = (AltRes.stuck j, s2) := by
            simpa [altScan2, CHANRCV, CHANSND, CHANNOP, CHANNOBLK, CHANEND, h1, h2, hg] using h
          obtain ⟨hs, hij, hex, hall⟩ := ih s (i + 1) j s2 hrec
          have hpass : entryPassedOver s e := Or.inr (Or.inl ⟨h2, Or.inl hg⟩)
          obtain ⟨a, b, cAll⟩ := stuck_spec_lift rest s e i j hij hpass hex hall
          exact ⟨hs, a, b, cAll⟩
        | some ch =>
          rcases hE : chanrecv ch with ⟨r, v1, ch1⟩
          cases r with
          | blocked =>
            have hred : altScan2 s (e :: rest) i = (AltRes.stuck i, s) := by
              simp [altScan2, CHANRCV, CHANSND, CHANNOP, CHANNOBLK, CHANEND, h1, h2, hg, hE]
            rw [hred] at h
            have hji : i = j := by
              have := congrArg Prod.fst h
              simpa using this
            have hss : s2 = s := by
              have := congrArg Prod.snd h
              simpa using this.symm
            subst hji
            refine ⟨hss, le_refl i, ⟨e, by simp, ?_⟩, by omega⟩
            exact Or.inl ⟨h2, ch, hg, by rw [hE]⟩
          | ret code =>
            by_cases hcode : (0 : Int) < code
            · have hred : altScan2 s (e :: rest) i =
                  (AltRes.sel i v1, setCh s e.c ch1) := by
                simp [altScan2, CHANRCV, CHANSND, CHANNOP, CHANNOBLK, CHANEND, h1, h2, hg, hE, hcode]
              rw [hred] at h
              have := congrArg Prod.fst h
              simp at this
            · have hm1 : code = -1 := by
                rcases chanrecv_code_cases ch with hb | hm | hp
                · rw [hE] at hb; cases hb
                · rw [hE] at hm
                  have : code = -1 := by
                    injection hm with hmc
                  exact this
                · rw [hE] at hp
                  have : code = 1 := by
                    injection hp with hpc
                  omega
              have hrec : altScan2 s rest (i + 1) = (AltRes.stuck j, s2) := by
                simpa [altScan2, CHANRCV, CHANSND, CHANNOP, CHANNOBLK, CHANEND, h1, h2, hg, hE, hcode] using h
              obtain ⟨hs, hij, hex, hall⟩ := ih s (i + 1) j s2 hrec
              have hpass : entryPassedOver s e :=
                Or.inr (Or.inl ⟨h2, Or.inr ⟨ch, hg, by rw [hE, hm1]⟩⟩)
              obtain ⟨a, b, cAll⟩ := stuck_spec_lift rest s e i j hij hpass hex hall
              exact ⟨hs, a, b, cAll⟩
      · by_cases h3 : e.op = CHANSND
        · cases hg : getCh s e.c with
          | none =>
            have hrec : altScan2 s rest (i + 1) = (AltRes.stuck j, s2) := by
              simpa [altScan2, CHANRCV, CHANSND, CHANNOP, CHANNOBLK, CHANEND, h1, h2, h3, hg] using h
            obtain ⟨hs, hij, hex, hall⟩ := ih s (i + 1) j s2 hrec
            have hpass : entryPassedOver s e := Or.inr (Or.inr ⟨h3, Or.inl hg⟩)
            obtain ⟨a, b, cAll⟩ := stuck_spec_lift rest s e i j hij hpass hex hall
            exact ⟨hs, a, b, cAll⟩
          | some ch =>
            rcases hE : chansend ch e.v with ⟨r, ch1⟩
            cases r with
            | blocked =>
              have hred : altScan2 s (e :: rest) i = (AltRes.stuck i, s) := by
                simp [altScan2, CHANRCV, CHANSND, CHANNOP, CHANNOBLK, CHANEND, h1, h2, h3, hg, hE]
              rw [hred] at h
              have hji : i = j := by
                have := congrArg Prod.fst h
                simpa using this
              have hss : s2 = s := by
                have := congrArg Prod.snd h
                simpa using this.symm
              subst hji
              refine ⟨hss, le_refl i, ⟨e, by simp, ?_⟩, by omega⟩
              exact Or.inr ⟨h3, ch, hg, by rw [hE]⟩
            | ret code =>
              by_cases hcode : (0 : Int) < code
              · have hred : altScan2 s (e :: rest) i =
                    (AltRes.sel i none, setCh s e.c ch1) := by
                  simp [altScan2, CHANRCV, CHANSND, CHANNOP, CHANNOBLK, CHANEND, h1, h2, h3, hg, hE, hcode]
                rw [hred] at h
                have := congrArg Prod.fst h
                simp at this
              · have hm1 : code = -1 := by
                  rcases chansend_code_cases ch e.v with hb | hm | hp
                  · rw [hE] at hb; cases hb
                  · rw [hE] at hm
                    injection hm with hmc
                  · rw [hE] at hp
                    have : code = 1 := by
                      injection hp with hpc
                    omega
                have hrec : altScan2 s rest (i + 1) = (AltRes.stuck j, s2) := by
                  simpa [altScan2, CHANRCV, CHANSND, CHANNOP, CHANNOBLK, CHANEND, h1, h2, h3, hg, hE, hcode] using h
                obtain ⟨hs, hij, hex, hall⟩ := ih s (i + 1) j s2 hrec
                have hpass : entryPassedOver s e :=
                  Or.inr (Or.inr ⟨h3, Or.inr ⟨ch, hg, by rw [hE, hm1]⟩⟩)
                obtain ⟨a, b, cAll⟩ := stuck_spec_lift rest s e i j hij hpass hex hall
                exact ⟨hs, a, b, cAll⟩
        · have hrec : altScan2 s rest (i + 1) = (AltRes.stuck j, s2) := by
            simpa [altScan2, h1, h2, h3] using h
          obtain ⟨hs, hij, hex, hall⟩ := ih s (i + 1) j s2 hrec
          have hpass : entryPassedOver s e := Or.inl ⟨h1, h2, h3⟩
          obtain ⟨a, b, cAll⟩ := stuck_spec_lift rest s e i j hij hpass hex hall
          exact ⟨hs, a, b, cAll⟩

/-- **C2 counterexample** — with entry 0 a receive on a closed empty
channel and entry 1 a receive on an open empty channel, no non-blocking
variant succeeds on the first scan, yet `alt` does not commit to entry 0's
blocking receive: it fails past it and suspends inside entry 1's blocking
receive (`stuck 1`), so a later entry is attempted in the blocking phase. -/
theorem alt_commit_counterexample :
    altScan1 [chanclose (chancreate 4 2), chancreate 4 2]
      [⟨0, 0, CHANRCV⟩, ⟨1, 0, CHANRCV⟩] 0 = none ∧
    (alt [chanclose (chancreate 4 2), chancreate 4 2]
      [⟨0, 0, CHANRCV⟩, ⟨1, 0, CHANRCV⟩]).1 = AltRes.stuck 1 :=
  ⟨rfl, rfl⟩

/-- **C2 amended** — when no entry's non-blocking variant succeeds on the
first scan, the blocking phase of `alt` does not commit to the first entry
unconditionally: it runs the blocking variants in list order, passing over
every entry whose blocking variant fails immediately (a nil handle, a
receive on a closed drained channel, a send on a closed channel, or an op
code the loop ignores), and commits to — suspends in — the first entry
whose blocking variant actually blocks, leaving the store unchanged at the
suspension point. -/
theorem alt_blocking_commits_to_first_nonfailing (s : Store) (entries : List AltEntry)
    (j : Nat) (s2 : Store)
    (h1 : altScan1 s entries 0 = none)
    (h2 : alt s entries = (AltRes.stuck j, s2)) :
    s2 = s ∧
    (∃ e, entries.get? j = some e ∧ entryBlocksNow s e) ∧
    (∀ k, k < j → ∀ e, entries.get? k = some e → entryPassedOver s e) := by
  have halt : altScan2 s entries 0 = (AltRes.stuck j, s2) := by
    unfold alt at h2
    rw [h1] at h2
    exact h2
  obtain ⟨hs, _, hex, hall⟩ := altScan2_stuck_spec entries s 0 j s2 halt
  refine ⟨hs, by simpa using hex, ?_⟩
  intro k hk e he
  exact hall k (by omega) e he

/-- Witness for the amended C2 at the counterexample configuration: the
blocking phase passes over the closed entry 0 and suspends at entry 1. -/
theorem alt_blocking_commits_witness :
    ([chanclose (chancreate 5 2), chancreate 5 2] : Store) =
      [chanclose (chancreate 5 2), chancreate 5 2] ∧
    (∃ e, ([⟨0, 0, CHANRCV⟩, ⟨1, 0, CHANRCV⟩] : List AltEntry).get? 1 = some e ∧
      entryBlocksNow [chanclose (chancreate 5 2), chancreate 5 2] e) ∧
    (∀ k, k < 1 → ∀ e, ([⟨0, 0, CHANRCV⟩, ⟨1, 0, CHANRCV⟩] : List AltEntry).get? k = some e →
      entryPassedOver [chanclose (chancreate 5 2), chancreate 5 2] e) :=
  alt_blocking_commits_to_first_nonfailing
    [chanclose (chancreate 5 2), chancreate 5 2]
    [⟨0, 0, CHANRCV⟩, ⟨1, 0, CHANRCV⟩] 1
    [chanclose (chancreate 5 2), chancreate 5 2] rfl rfl

/-- **C5** — select first-ready-wins: for `alt` over
`[receive(A), receive(B)]` where A is empty and open and B holds at least
one value in a real buffer, the call returns index 1 with the front value
of B (no blocking), consumes one element of B, and leaves A — count,
offset, closed flag and buffer contents — exactly unchanged in the store. -/
theorem alt_first_ready_wins (A B : Chan)
    (hA0 : A.nbuf = 0) (_hAc : A.closed = false)
    (hB : 0 < B.nbuf) (hBb : B.hasbuf = true) (_hes : 0 < B.elemsize) :
    alt [A, B] [⟨0, 0, CHANRCV⟩, ⟨1, 0, CHANRCV⟩] =
      (AltRes.sel 1 (some (B.buf B.off)), [A, recvState B]) := by
  have hnbA : channbrecv A = (0, none, A) := by
    rcases channbrecv_spec A with ⟨_, hE⟩ | ⟨hp, _⟩
    · exact hE
    · omega
  have hnbB : channbrecv B = (1, recvVal B, recvState B) := by
    rcases channbrecv_spec B with ⟨hle, _⟩ | ⟨_, hE⟩
    · omega
    · exact hE
  unfold alt
  have hscan : altScan1 [A, B] [⟨0, 0, CHANRCV⟩, ⟨1, 0, CHANRCV⟩] 0 =
      some (1, recvVal B, setCh [A, B] 1 (recvState B)) := by
    simp [altScan1, CHANRCV, CHANSND, CHANNOP, CHANNOBLK, CHANEND, getCh, setCh,
      hnbA, hnbB]
  rw [hscan]
  simp [setCh, recvVal, hBb]

/-- Witness for C5: A fresh and empty, B holding the value 7. -/
theorem alt_first_ready_wins_witness :
    alt [chancreate 4 2, (chansend (chancreate 4 2) 7).2]
      [⟨0, 0, CHANRCV⟩, ⟨1, 0, CHANRCV⟩] =
      (AltRes.sel 1 (some (((chansend (chancreate 4 2) 7).2).buf
          ((chansend (chancreate 4 2) 7).2).off)),
        [chancreate 4 2, recvState ((chansend (chancreate 4 2) 7).2)]) :=
  alt_first_ready_wins (chancreate 4 2) ((chansend (chancreate 4 2) 7).2)
    (by decide) (by decide) (by decide) (by decide) (by decide)

/-- **C7 counterexample** — a select whose first entry is a receive on a
closed empty channel is not "immediately ready with ClosedError": with a
second entry receiving on an open empty channel, `alt` fails past the
closed entry and suspends (blocks) inside entry 1's blocking receive
instead of returning. -/
theorem alt_closed_edge_counterexample :
    (alt [chanclose (chancreate 4 3), chancreate 4 3]
      [⟨0, 0, CHANRCV⟩, ⟨1, 0, CHANRCV⟩]).1 = AltRes.stuck 1 :=
  rfl

/-- **C7 amended** — edge cases of `alt` on closed channels:
1. a first-entry receive on a closed but non-empty channel succeeds
   immediately in the non-blocking scan, returning index 0 with a drained
   value;
2. when the operation list holds only a receive on a closed empty channel,
   `alt` returns -1 (`fail`) immediately, without blocking and without
   touching the store;
3. likewise for a single-entry send on a closed channel;
4. but in a longer list such an entry is not selected and not reported:
   the blocking loop fails past it to the later entries. -/
theorem alt_closed_channel_edges :
    (∀ (s : Store) (e : AltEntry) (rest : List AltEntry) (ch : Chan),
      e.op = CHANRCV → getCh s e.c = some ch → ch.closed = true → 0 < ch.nbuf →
      ch.hasbuf = true →
      alt s (e :: rest) = (AltRes.sel 0 (some (ch.buf ch.off)), setCh s e.c (recvState ch))) ∧
    (∀ (s : Store) (e : AltEntry) (ch : Chan),
      e.op = CHANRCV → getCh s e.c = some ch → ch.closed = true → ch.nbuf ≤ 0 →
      alt s [e] = (AltRes.fail, s)) ∧
    (∀ (s : Store) (e : AltEntry) (ch : Chan),
      e.op = CHANSND → getCh s e.c = some ch → ch.closed = true →
      alt s [e] = (AltRes.fail, s)) ∧
    (∀ (s : Store) (e : AltEntry) (rest : List AltEntry) (ch : Chan) (i : Nat),
      e.op = CHANRCV → getCh s e.c = some ch → ch.closed = true → ch.nbuf ≤ 0 →
      altScan2 s (e :: rest) i = altScan2 s rest (i + 1)) := by
  refine ⟨?_, ?_, ?_, ?_⟩
  · intro s e rest ch hop hg hcl hnb hb
    have hnbB : channbrecv ch = (1, recvVal ch, recvState ch) := by
      rcases channbrecv_spec ch with ⟨hle, _⟩ | ⟨_, hE⟩
      · omega
      · exact hE
    unfold alt
    have hscan : altScan1 s (e :: rest) 0 = some (0, recvVal ch, setCh s e.c (recvState ch)) := by
      simp [altScan1, CHANRCV, CHANSND, CHANNOP, CHANNOBLK, CHANEND, hop, hg, hnbB]
    rw [hscan]
    simp [recvVal, hb]
  · intro s e ch hop hg hcl hnb
    have hnbB : channbrecv ch = (0, none, ch) := by
      rcases channbrecv_spec ch with ⟨_, hE⟩ | ⟨hp, _⟩
      · exact hE
      · omega
    have hrecv : chanrecv ch = (BRes.ret (-1), none, ch) := by
      rcases chanrecv_spec ch with ⟨_, hclf, _⟩ | ⟨_, _, hE⟩ | ⟨hp, _⟩
      · rw [hcl] at hclf; cases hclf
      · exact hE
      · omega
    unfold alt
    have hscan : altScan1 s [e] 0 = none := by
      simp [altScan1, CHANRCV, CHANSND, CHANNOP, CHANNOBLK, CHANEND, hop, hg, hnbB]
    rw [hscan]
    simp [altScan2, CHANRCV, CHANSND, CHANNOP, CHANNOBLK, CHANEND, hop, hg, hrecv]
  · intro s e ch hop hg hcl
    have hnbB : channbsend ch e.v = (0, ch) := by
      rcases channbsend_spec ch e.v with ⟨_, hE⟩ | ⟨hclf, _, _⟩
      · exact hE
      · rw [hcl] at hclf; cases hclf
    have hsend : chansend ch e.v = (BRes.ret (-1), ch) := by
      rcases chansend_spec ch e.v with ⟨_, hE⟩ | ⟨hclf, _, _⟩ | ⟨hclf, _, _⟩
      · exact hE
      · rw [hcl] at hclf; cases hclf
      · rw [hcl] at hclf; cases hclf
    unfold alt
    have hscan : altScan1 s [e] 0 = none := by
      simp [altScan1, CHANRCV, CHANSND, CHANNOP, CHANNOBLK, CHANEND, hop, hg, hnbB]
    rw [hscan]
    simp [altScan2, CHANRCV, CHANSND, CHANNOP, CHANNOBLK, CHANEND, hop, hg, hsend]
  · intro s e rest ch i hop hg hcl hnb
    have hrecv : chanrecv ch = (BRes.ret (-1), none, ch) := by
      rcases chanrecv_spec ch with ⟨_, hclf, _⟩ | ⟨_, _, hE⟩ | ⟨hp, _⟩
      · rw [hcl] at hclf; cases hclf
      · exact hE
      · omega
    simp [altScan2, CHANRCV, CHANSND, CHANNOP, CHANNOBLK, CHANEND, hop, hg, hrecv]

/-- Witness for the amended C7 at concrete channels: a closed channel still
holding 9 is drained by a select with index 0; single-entry selects on
closed channels return `fail` at once; a closed empty entry is skipped by
the blocking loop. -/
theorem alt_closed_channel_edges_witness :
    alt [chanclose ((chansend (chancreate 4 2) 9).2)] [⟨0, 0, CHANRCV⟩] =
      (AltRes.sel 0 (some ((chanclose ((chansend (chancreate 4 2) 9).2)).buf
          (chanclose ((chansend (chancreate 4 2) 9).2)).off)),
        setCh [chanclose ((chansend (chancreate 4 2) 9).2)] 0
          (recvState (chanclose ((chansend (chancreate 4 2) 9).2)))) ∧
    alt [chanclose (chancreate 4 2)] [⟨0, 0, CHANRCV⟩] =
      (AltRes.fail, [chanclose (chancreate 4 2)]) ∧
    alt [chanclose (chancreate 4 2)] [⟨0, 0, CHANSND⟩] =
      (AltRes.fail, [chanclose (chancreate 4 2)]) ∧
    altScan2 [chanclose (chancreate 4 2)] [⟨0, 0, CHANRCV⟩, ⟨0, 0, CHANRCV⟩] 0 =
      altScan2 [chanclose (chancreate 4 2)] [⟨0, 0, CHANRCV⟩] 1 :=
  ⟨alt_closed_channel_edges.1 [chanclose ((chansend (chancreate 4 2) 9).2)]
      ⟨0, 0, CHANRCV⟩ [] (chanclose ((chansend (chancreate 4 2) 9).2))
      rfl rfl (by decide) (by decide) (by decide),
   alt_closed_channel_edges.2.1 [chanclose (chancreate 4 2)] ⟨0, 0, CHANRCV⟩
      (chanclose (chancreate 4 2)) rfl rfl (by decide) (by decide),
   alt_closed_channel_edges.2.2.1 [chanclose (chancreate 4 2)] ⟨0, 0, CHANSND⟩
      (chanclose (chancreate 4 2)) rfl rfl (by decide),
   alt_closed_channel_edges.2.2.2 [chanclose (chancreate 4 2)]
      ⟨0, 0, CHANRCV⟩ [⟨0, 0, CHANRCV⟩] (chanclose (chancreate 4 2)) 0
      rfl rfl (by decide) (by decide)⟩

example : (chansend (chancreate 4 2) 7).1 = BRes.ret 1 := by decide
example : (chanrecv ((chansend (chancreate 4 2) 7).2)).2.1 = some 7 := by decide
example : (chansend (chanclose (chancreate 4 2)) 7).1 = BRes.ret (-1) := by decide
example : contents ((chansend (chancreate 4 2) 7).2) = [7] := by decide

end CogChan
